import Mathlib

/-!
Shallow embedding of `cvt_concept_map_visual_editor.py` (CVT Concept Map
Visual Editor): the entity model (`Node`, `TextNode`, `Arrow`), the canvas
document state (`CanvasWidget`), its mutation operations, serialization
(`save_diagram` / `load_diagram`) and the triple export.

Modelling conventions:
* Python object identity is modelled by a `Nat` identifier (`id` field)
  assigned from a fresh-id counter `nextId` in the canvas state; `is`,
  `!=` on objects and dict keying by object all become comparisons /
  lookups on these ids.  Arrows hold the ids of their endpoint nodes
  (Python holds object references).
* Coordinates are exact rationals `ℚ` (Python floats); font metrics
  (`QFontMetrics.horizontalAdvance` / `.height`, which return ints) are an
  abstract `FontMetrics` parameter.
* Fallible operations (`KeyError` in `Arrow.to_dict`, `IndexError` in
  `load_diagram`) return `Option` / an explicit error flag.  `load_diagram`
  returns the canvas state as it stands when the exception is raised,
  because in Python the partially mutated object survives the exception.
-/

/-- Abstract text-metrics provider standing for a `QFontMetrics` built from
the node font: `horizontalAdvance` of a string and the line `height`. -/
structure FontMetrics where
  horizontalAdvance : String → Int
  height : Int

/-- The variant tag distinguishing a concept `Node` from a `TextNode`
(the Python subclass). -/
inductive NodeKind where
  | node
  | textnode
deriving DecidableEq, Repr

/-- A node of the diagram: position `(x, y)`, `text`, `selected` flag and
the derived size `w`/`h`.  The `id` models Python object identity; `kind`
models the class tag (`Node` vs `TextNode`). -/
structure Node where
  id : Nat
  kind : NodeKind
  x : ℚ
  y : ℚ
  text : String
  selected : Bool
  w : ℚ
  h : ℚ
deriving DecidableEq, Repr

namespace Node

/-- Embeds `Node.set_text` / `TextNode.set_text` (the two Python bodies
are identical): store the text and recompute `w = horizontalAdvance(text) + 18`,
`h = metrics.height() + 12`. -/
def set_text (m : FontMetrics) (n : Node) (text : String) : Node :=
  { n with
    text := text
    w := (m.horizontalAdvance text : ℚ) + 18
    h := (m.height : ℚ) + 12 }

/-- Embeds `Node.__init__` / `TextNode.__init__`: set the fields then call
`set_text` on the initial text (which fills in `w`/`h`). -/
def make (m : FontMetrics) (id : Nat) (kind : NodeKind) (x y : ℚ)
    (text : String) : Node :=
  set_text m { id := id, kind := kind, x := x, y := y, text := text,
               selected := false, w := 0, h := 0 } text

/-- Embeds `Node.center`: `(x + w/2, y + h/2)`. -/
def center (n : Node) : ℚ × ℚ :=
  (n.x + n.w / 2, n.y + n.h / 2)

/-- Embeds `Node.contains`: `QRectF(x, y, w, h).contains(point)` — a point inside
or on the edge of the rectangle counts as contained. -/
def contains (n : Node) (p : ℚ × ℚ) : Bool :=
  n.x ≤ p.1 && p.1 ≤ n.x + n.w && n.y ≤ p.2 && p.2 ≤ n.y + n.h

/-- Embeds `Node.boundary_point`: the point where the ray from the node's center
toward `target` exits the node's rectangle.  If `target` equals the center
it is returned unchanged.  Otherwise the per-axis scales are
`hw/|dx|` (infinite when `dx = 0`, Python `float('inf')`) and `hh/|dy|`
(infinite when `dy = 0`); `min` with an infinite scale picks the finite
one, which the branches below express directly. -/
def boundary_point (n : Node) (target : ℚ × ℚ) : ℚ × ℚ :=
  let cx := n.x + n.w / 2
  let cy := n.y + n.h / 2
  let dx := target.1 - cx
  let dy := target.2 - cy
  if dx = 0 ∧ dy = 0 then
    (cx, cy)
  else
    let hw := n.w / 2
    let hh := n.h / 2
    let scale :=
      if dx = 0 then hh / |dy|
      else if dy = 0 then hw / |dx|
      else min (hw / |dx|) (hh / |dy|)
    (cx + dx * scale, cy + dy * scale)

end Node

/-- A directed arrow between two nodes, held by endpoint identity
(`start_node` / `end_node` are node ids standing for Python object
references).  `id` models the arrow object's own identity. -/
structure Arrow where
  id : Nat
  start_node : Nat
  end_node : Nat
  selected : Bool
deriving DecidableEq, Repr

/-- The mutable state of `CanvasWidget`: node list (z-order), arrow list,
the selection / drag / pending-arrow-source references (as ids), and the
fresh-id counter modelling Python object identity allocation.  The zoom
factor and the inline editor are omitted: the operations below take
positions already mapped to document space (the source divides the event
position by `self._zoom` first), and no modelled claim touches the edit
overlay. -/
structure CanvasState where
  nodes : List Node
  arrows : List Arrow
  selected_node : Option Nat
  selected_arrow : Option Nat
  arrow_source_node : Option Nat
  dragging_node : Option Nat
  drag_offset : ℚ × ℚ
  nextId : Nat
deriving Repr

namespace CanvasState

/-- Resolve a node id to the node currently in the store.  (A dangling
arrow in Python still holds the dead object; the claims modelled here only
dereference arrows whose endpoints are in the store.) -/
def getNode (s : CanvasState) (nid : Nat) : Option Node :=
  s.nodes.find? (fun n => n.id == nid)

/-- Embeds `CanvasWidget.select_arrow`: set every arrow's `selected` to
`a is arrow`; record `selected_arrow`; if the argument is a real arrow,
also clear every node's flag and `selected_node`. -/
def select_arrow (s : CanvasState) (target : Option Nat) : CanvasState :=
  let s' := { s with
    arrows := s.arrows.map (fun a => { a with selected := target == some a.id })
    selected_arrow := target }
  match target with
  | some _ =>
      { s' with
        nodes := s'.nodes.map (fun n => { n with selected := false })
        selected_node := none }
  | none => s'

/-- Embeds `CanvasWidget.select_node`: set every node's `selected` to
`n is node`; record `selected_node`; then `select_arrow(None)`. -/
def select_node (s : CanvasState) (target : Option Nat) : CanvasState :=
  let s' := { s with
    nodes := s.nodes.map (fun n => { n with selected := target == some n.id })
    selected_node := target }
  select_arrow s' none

/-- Embeds `CanvasWidget.add_node`: default text `"Node {count+1}"` counting the
existing concept nodes, append a fresh `Node` at the end (top z-order). -/
def add_node (m : FontMetrics) (s : CanvasState) (x y : ℚ)
    (text : Option String) : CanvasState :=
  let t := match text with
    | some t => t
    | none =>
        "Node " ++ toString ((s.nodes.filter (fun n => n.kind != NodeKind.textnode)).length + 1)
  { s with
    nodes := s.nodes ++ [Node.make m s.nextId NodeKind.node x y t]
    nextId := s.nextId + 1 }

/-- Embeds `CanvasWidget.add_text_node`: default text `"Text {count+1}"` counting
the existing text nodes, append a fresh `TextNode`. -/
def add_text_node (m : FontMetrics) (s : CanvasState) (x y : ℚ)
    (text : Option String) : CanvasState :=
  let t := match text with
    | some t => t
    | none =>
        "Text " ++ toString ((s.nodes.filter (fun n => n.kind == NodeKind.textnode)).length + 1)
  { s with
    nodes := s.nodes ++ [Node.make m s.nextId NodeKind.textnode x y t]
    nextId := s.nextId + 1 }

/-- Embeds `CanvasWidget.delete_selected_node`: if a node is selected, drop every
arrow whose `start_node` or `end_node` is that node, then remove the node
(Python `list.remove` removes the first — by identity, the unique —
occurrence) and clear `selected_node`.  Note the pending
`arrow_source_node` is NOT cleared. -/
def delete_selected_node (s : CanvasState) : CanvasState :=
  match s.selected_node with
  | none => s
  | some nid =>
      { s with
        arrows := s.arrows.filter
          (fun a => a.start_node != nid && a.end_node != nid)
        nodes := s.nodes.eraseP (fun n => n.id == nid)
        selected_node := none }

/-- Embeds `CanvasWidget.delete_selected_arrow`: remove the selected arrow. -/
def delete_selected_arrow (s : CanvasState) : CanvasState :=
  match s.selected_arrow with
  | none => s
  | some aid =>
      { s with
        arrows := s.arrows.eraseP (fun a => a.id == aid)
        selected_arrow := none }

/-- Hit-test the nodes in reverse z-order (`for node in reversed(self.nodes)`),
returning the topmost node containing the position. -/
def findTopmostNode (s : CanvasState) (pos : ℚ × ℚ) : Option Node :=
  s.nodes.reverse.find? (fun n => n.contains pos)

/-- The right-button branch of `CanvasWidget.mousePressEvent` (the
arrow-linking gesture), with `pos` already in document space.  If a node
is hit: when a pending source exists and differs from the hit node, append
`Arrow(source, hit)` and clear the pending source; otherwise (no pending
source, or the hit node IS the pending source) set the pending source to
the hit node.  If no node is hit, cancel any pending source. -/
def mousePressRight (s : CanvasState) (pos : ℚ × ℚ) : CanvasState :=
  match s.findTopmostNode pos with
  | some n =>
      match s.arrow_source_node with
      | some src =>
          if src != n.id then
            { s with
              arrows := s.arrows ++ [⟨s.nextId, src, n.id, false⟩]
              arrow_source_node := none
              nextId := s.nextId + 1 }
          else
            { s with arrow_source_node := some n.id }
      | none => { s with arrow_source_node := some n.id }
  | none =>
      match s.arrow_source_node with
      | some _ => { s with arrow_source_node := none }
      | none => s

end CanvasState

/-- Squared Euclidean distance between two points. -/
def sqDist (p q : ℚ × ℚ) : ℚ :=
  (p.1 - q.1) ^ 2 + (p.2 - q.2) ^ 2

namespace Arrow

/-- Embeds `Arrow.points`, applied to the resolved endpoint nodes: the start and
end of the drawn segment, each anchored on the boundary of its node toward
the other node's center — computed lazily from current node state, never
stored. -/
def points (sn en : Node) : (ℚ × ℚ) × (ℚ × ℚ) :=
  (sn.boundary_point en.center, en.boundary_point sn.center)

/-- Embeds `Arrow.contains` (hit-test with tolerance 8), applied to the resolved
endpoint nodes.  The source compares the Euclidean distance from `pos` to
its clamped projection on the segment against the tolerance; both sides
being nonnegative, `dist < tol` is equivalent to `dist² < tol²`, which is
what is computed here (no square root over `ℚ`). -/
def containsPos (sn en : Node) (pos : ℚ × ℚ) (tolerance : ℚ) : Bool :=
  let (st, en') := points sn en
  let dx := en'.1 - st.1
  let dy := en'.2 - st.2
  if dx = 0 ∧ dy = 0 then
    decide (sqDist pos st < tolerance ^ 2)
  else
    let t := ((pos.1 - st.1) * dx + (pos.2 - st.2) * dy) / (dx * dx + dy * dy)
    let t := max 0 (min 1 t)
    let proj := (st.1 + t * dx, st.2 + t * dy)
    decide (sqDist pos proj < tolerance ^ 2)

end Arrow

namespace CanvasState

/-- Hit-test the arrows in reverse z-order
(`for arrow in reversed(self.arrows)`).  A dangling arrow (an endpoint no
longer in the store) still holds the dead node object in Python; here its
hit-test is `false` — no modelled claim hit-tests a dangling arrow. -/
def findTopmostArrow (s : CanvasState) (pos : ℚ × ℚ) : Option Arrow :=
  s.arrows.reverse.find? (fun a =>
    match s.getNode a.start_node, s.getNode a.end_node with
    | some sn, some en => Arrow.containsPos sn en pos 8
    | _, _ => false)

/-- The left-button branch of `CanvasWidget.mousePressEvent`: hit-test
arrows topmost-first (select the hit arrow and stop), else nodes
topmost-first (select the hit node and begin a drag), else clear all
selection and the drag.  (`hide_editor` is not modelled.) -/
def mousePressLeft (s : CanvasState) (pos : ℚ × ℚ) : CanvasState :=
  match s.findTopmostArrow pos with
  | some a => s.select_arrow (some a.id)
  | none =>
      match s.findTopmostNode pos with
      | some n =>
          let s' := s.select_node (some n.id)
          { s' with
            dragging_node := some n.id
            drag_offset := (pos.1 - n.x, pos.2 - n.y) }
      | none =>
          let s' := (s.select_node none).select_arrow none
          { s' with dragging_node := none }

end CanvasState

/-- The dictionary written for one node:
`{"type": ..., "x": ..., "y": ..., "text": ...}`. -/
structure NodeDict where
  type : String
  x : ℚ
  y : ℚ
  text : String
deriving DecidableEq, Repr

/-- The dictionary written for one arrow: `{"start": index, "end": index}`.
The `end` key is a Lean keyword, hence `endIdx`.  The fields are `Int`
because Python `list` indexing accepts negative indices. -/
structure ArrowDict where
  start : Int
  endIdx : Int
deriving DecidableEq, Repr

/-- The JSON document `{nodes: [...], arrows: [...]}` written by
`save_diagram` and read by `load_diagram`. -/
structure DiagramData where
  nodes : List NodeDict
  arrows : List ArrowDict
deriving DecidableEq, Repr

/-- Embeds `Node.to_dict` / `TextNode.to_dict`: the `type` tag is `"node"` for a
concept node and `"textnode"` for a text node. -/
def node_to_dict (n : Node) : NodeDict :=
  { type := match n.kind with
      | NodeKind.node => "node"
      | NodeKind.textnode => "textnode"
    x := n.x
    y := n.y
    text := n.text }

/-- The `node_indices` dict of `save_diagram`
(`{node: idx for idx, node in enumerate(self.nodes)}`), looked up by
object identity: the index of the (first, and by uniqueness of identity
the only) node with the given id. -/
def indexOfNode (nodes : List Node) (nid : Nat) : Option Nat :=
  match nodes with
  | [] => none
  | n :: rest =>
      if n.id = nid then some 0
      else (indexOfNode rest nid).map (· + 1)

/-- Embeds `Arrow.to_dict(node_indices)`: look both endpoints up in the index
dict; a dangling endpoint raises `KeyError` (here `none`). -/
def arrow_to_dict (nodes : List Node) (a : Arrow) : Option ArrowDict := do
  let si ← indexOfNode nodes a.start_node
  let ei ← indexOfNode nodes a.end_node
  pure { start := (si : Int), endIdx := (ei : Int) }

/-- The arrows list comprehension of `save_diagram`, which propagates a
`KeyError` from any `Arrow.to_dict`. -/
def arrows_to_dicts (nodes : List Node) : List Arrow → Option (List ArrowDict)
  | [] => some []
  | a :: rest => do
      let d ← arrow_to_dict nodes a
      let ds ← arrows_to_dicts nodes rest
      pure (d :: ds)

/-- Embeds `CanvasWidget.save_diagram`: the JSON data written to the file
(`none` when a dangling arrow endpoint raises `KeyError`). -/
def save_diagram (s : CanvasState) : Option DiagramData := do
  let ars ← arrows_to_dicts s.nodes s.arrows
  pure { nodes := s.nodes.map node_to_dict, arrows := ars }

/-- Python list indexing `l[i]` for `int` i: negative indices count from
the end (`l[-1]` is the last element); out of range (`i ≥ len` or
`i < -len`) raises `IndexError` (here `none`). -/
def pyIndex {α : Type} (l : List α) (i : Int) : Option α :=
  let j := if i < 0 then (l.length : Int) + i else i
  if 0 ≤ j then l.get? j.toNat else none

/-- The node loop of `load_diagram`: rebuild the nodes in array order,
skipping dicts whose `type` is neither `"node"` nor `"textnode"`
(`continue`), threading the fresh-id counter (each constructed Python
object is a fresh identity). -/
def buildNodes (m : FontMetrics) (nid : Nat) :
    List NodeDict → List Node × Nat
  | [] => ([], nid)
  | nd :: rest =>
      if nd.type = "node" then
        let (ns, nid') := buildNodes m (nid + 1) rest
        (Node.make m nid NodeKind.node nd.x nd.y nd.text :: ns, nid')
      else if nd.type = "textnode" then
        let (ns, nid') := buildNodes m (nid + 1) rest
        (Node.make m nid NodeKind.textnode nd.x nd.y nd.text :: ns, nid')
      else
        buildNodes m nid rest

/-- The arrow loop of `load_diagram`: resolve `start` then `end` as Python
list indices into the just-built node list; an `IndexError` stops the loop
with the arrows appended so far and the error flag raised. -/
def buildArrows (nodes : List Node) (aid : Nat) :
    List ArrowDict → List Arrow × Nat × Bool
  | [] => ([], aid, false)
  | ad :: rest =>
      match pyIndex nodes ad.start with
      | none => ([], aid, true)
      | some sn =>
          match pyIndex nodes ad.endIdx with
          | none => ([], aid, true)
          | some en =>
              let (ars, aid', err) := buildArrows nodes (aid + 1) rest
              (⟨aid, sn.id, en.id, false⟩ :: ars, aid', err)

/-- Embeds `CanvasWidget.load_diagram` on already-parsed JSON data.  The source
FIRST clears `self.nodes` and `self.arrows`, rebuilds the nodes, then
resolves the arrows; an out-of-range index raises `IndexError` at that
point, leaving the object with the new nodes and the arrows built so far,
and with the old selection / pending-source references (the lines
resetting them are only reached on success).  Returns the state as it
stands together with the error flag. -/
def load_diagram (m : FontMetrics) (s : CanvasState) (d : DiagramData) :
    CanvasState × Bool :=
  let (ns, nid) := buildNodes m s.nextId d.nodes
  let (ars, aid, err) := buildArrows ns nid d.arrows
  if err then
    ({ s with nodes := ns, arrows := ars, nextId := aid }, true)
  else
    ({ s with
        nodes := ns
        arrows := ars
        nextId := aid
        selected_node := none
        selected_arrow := none
        arrow_source_node := none }, false)

/-- Models `outgoing.setdefault(key, []).append(value)` on the association-list
model of the `outgoing` dict (keyed by node identity): append `v` to the
list at key `k`, creating the entry if absent. -/
def addOutgoing : List (Nat × List Nat) → Nat → Nat → List (Nat × List Nat)
  | [], k, v => [(k, [v])]
  | (k', vs) :: rest, k, v =>
      if k' = k then (k', vs ++ [v]) :: rest
      else (k', vs) :: addOutgoing rest k v

/-- The `outgoing` dict of `export_node_textnode_node_tuples`: for each
arrow in order, record `end_node` under key `start_node`. -/
def outgoingDict (arrows : List Arrow) : List (Nat × List Nat) :=
  arrows.foldl (fun d a => addOutgoing d a.start_node a.end_node) []

/-- Models `outgoing.get(node, [])`. -/
def dictGet (d : List (Nat × List Nat)) (k : Nat) : List Nat :=
  match d.find? (fun p => p.1 == k) with
  | some p => p.2
  | none => []

/-- One exported line: `f"{node.text}, {mid.text}, {end.text}"`. -/
def tripleLine (a m b : Node) : String :=
  a.text ++ ", " ++ m.text ++ ", " ++ b.text

/-- Embeds `CanvasWidget.export_node_textnode_node_tuples`: build the `outgoing`
dict, then for every concept node (in document order), for every outgoing
neighbour that is a text node, for every neighbour of that text node that
is a concept node, emit the triple line.  In Python the dict holds node
objects; here the neighbour ids are resolved through the store (`getNode`),
which agrees whenever every arrow endpoint is in the store. -/
def export_node_textnode_node_tuples (s : CanvasState) : List String :=
  let outgoing := outgoingDict s.arrows
  s.nodes.flatMap (fun node =>
    if node.kind == NodeKind.node then
      (dictGet outgoing node.id).flatMap (fun midId =>
        match s.getNode midId with
        | some mid =>
            if mid.kind == NodeKind.textnode then
              (dictGet outgoing mid.id).flatMap (fun endId =>
                match s.getNode endId with
                | some en =>
                    if en.kind == NodeKind.node then [tripleLine node mid en]
                    else []
                | none => [])
            else []
        | none => [])
    else [])

/-- Restatement of the triple export from the spec's words, to be compared
with `export_node_textnode_node_tuples`: for every concept node `A` (in
document order), for every arrow `A → M` (in arrow order) where `M` is a
text node, for every arrow `M → B` (in arrow order) where `B` is a concept
node, the line `"{A.text}, {M.text}, {B.text}"`. -/
def tripleExportSpec (s : CanvasState) : List String :=
  (s.nodes.filter (fun n => n.kind == NodeKind.node)).flatMap (fun A =>
    (s.arrows.filter (fun a => a.start_node == A.id)).flatMap (fun ar1 =>
      match s.getNode ar1.end_node with
      | some M =>
          if M.kind == NodeKind.textnode then
            (s.arrows.filter (fun a => a.start_node == M.id)).flatMap (fun ar2 =>
              match s.getNode ar2.end_node with
              | some B =>
                  if B.kind == NodeKind.node then [tripleLine A M B]
                  else []
              | none => [])
          else []
      | none => []))

/-- The number of entities (nodes and arrows together) whose `selected`
flag is set. -/
def countSelected (s : CanvasState) : Nat :=
  (s.nodes.filter (fun n => n.selected)).length
    + (s.arrows.filter (fun a => a.selected)).length

/-- The ids of the nodes currently in the store. -/
def nodeIds (s : CanvasState) : List Nat :=
  s.nodes.map (fun n => n.id)

/-- Node ids are pairwise distinct (true of every Python state: ids model
object identity). -/
abbrev NodupNodeIds (s : CanvasState) : Prop :=
  (s.nodes.map (fun n => n.id)).Nodup

/-- Arrow ids are pairwise distinct (true of every Python state). -/
abbrev NodupArrowIds (s : CanvasState) : Prop :=
  (s.arrows.map (fun a => a.id)).Nodup

/-- Every arrow endpoint is a node currently in the store (the
no-dangling-reference invariant). -/
abbrev WFArrows (s : CanvasState) : Prop :=
  ∀ a ∈ s.arrows, a.start_node ∈ nodeIds s ∧ a.end_node ∈ nodeIds s

/-- The number of arrows with the given (source id, target id) pair. -/
def countPair (arrows : List Arrow) (srcId dstId : Nat) : Nat :=
  (arrows.filter
    (fun a => a.start_node == srcId && a.end_node == dstId)).length

/-- Closed form of the node list `load_diagram` rebuilds from the dicts a
`save_diagram` wrote: each node reconstructed by `Node.make` from its own
serialized fields, with sequential fresh ids. -/
def rebuild (m : FontMetrics) (nid : Nat) : List Node → List Node
  | [] => []
  | n :: rest =>
      Node.make m nid n.kind n.x n.y n.text :: rebuild m (nid + 1) rest

/-- Correspondence between a saved `Arrow` and its `ArrowDict`: both
endpoints found in the node-index dict, the dict holding those indices. -/
def ArrowSaved (nodes : List Node) (a : Arrow) (ad : ArrowDict) : Prop :=
  ∃ si ei : Nat,
    indexOfNode nodes a.start_node = some si ∧
    indexOfNode nodes a.end_node = some ei ∧
    ad = { start := (si : Int), endIdx := (ei : Int) }

/-- Correspondence between an `ArrowDict` and the `Arrow` rebuilt from it
by the arrow loop of `load_diagram`: both indices resolve, and the rebuilt
arrow carries the ids of the resolved nodes. -/
def ArrowLoaded (nodes : List Node) (ad : ArrowDict) (a : Arrow) : Prop :=
  ∃ sn en : Node,
    pyIndex nodes ad.start = some sn ∧
    pyIndex nodes ad.endIdx = some en ∧
    a.start_node = sn.id ∧ a.end_node = en.id

/-- Concrete font metrics for the closed scenarios below: every string
advances 10 units, line height 16. -/
def mTest : FontMetrics :=
  { horizontalAdvance := fun _ => 10, height := 16 }

/-- The freshly constructed, empty canvas. -/
def emptyCanvas : CanvasState :=
  { nodes := [], arrows := [], selected_node := none, selected_arrow := none
    arrow_source_node := none, dragging_node := none, drag_offset := (0, 0)
    nextId := 0 }

/-- A canvas holding one previously loaded document: a single concept node
and no arrows. -/
def oldDocCanvas : CanvasState :=
  { emptyCanvas with
    nodes := [Node.make mTest 0 NodeKind.node 1 1 "Old"], nextId := 1 }

/-- Stored document with two nodes and an arrow whose `start` index 5 is
out of range (the spec's out-of-range load scenario). -/
def dataOutOfRange : DiagramData :=
  { nodes := [⟨"node", 0, 0, "P"⟩, ⟨"node", 100, 0, "Q"⟩]
    arrows := [{ start := 5, endIdx := 0 }] }

/-- Stored document with two nodes and an arrow whose `start` index `-1`
lies outside `[0, nodeCount)` but inside Python's accepted range. -/
def dataNegIndex : DiagramData :=
  { nodes := [⟨"node", 0, 0, "P"⟩, ⟨"node", 100, 0, "Q"⟩]
    arrows := [{ start := -1, endIdx := 0 }] }

/-- Two concept nodes `A` (id 0) and `B` (id 1), both at `(20, 20)`, as
produced by two `add_node` clicks. -/
def twoNodeCanvas : CanvasState :=
  CanvasState.add_node mTest
    (CanvasState.add_node mTest emptyCanvas 20 20 (some "A")) 20 20 (some "B")

/-- The dangling-source scenario: right-click `B` (making it the pending
arrow source), left-click `B` (selecting it), delete it, then right-click
again — hitting `A` — which completes the linking gesture from the deleted
`B` to `A`. -/
def danglingScenario : CanvasState :=
  CanvasState.mousePressRight
    (CanvasState.delete_selected_node
      (CanvasState.mousePressLeft
        (CanvasState.mousePressRight twoNodeCanvas (20, 20)) (20, 20)))
    (20, 20)

/-- Concept `A` at (0,0), text node `M` at (100,0), concept `B` at
(200,0), arrows `A → M` and `M → B`, with the default generated texts —
the spec's triple-export scenario. -/
def tripleScenario : CanvasState :=
  { emptyCanvas with
    nodes :=
      [Node.make mTest 0 NodeKind.node 0 0 "Node 1",
       Node.make mTest 1 NodeKind.textnode 100 0 "Text 1",
       Node.make mTest 2 NodeKind.node 200 0 "Node 2"]
    arrows := [⟨3, 0, 1, false⟩, ⟨4, 1, 2, false⟩]
    nextId := 5 }

/-- Concept `A` (id 0) at (0,0) and concept `B` (id 1) at (100,0), one
arrow `A → B` already present, and `A` pending as arrow source — the
duplicate-arrow scenario. -/
def dupArrowCanvas : CanvasState :=
  { emptyCanvas with
    nodes :=
      [Node.make mTest 0 NodeKind.node 0 0 "A",
       Node.make mTest 1 NodeKind.node 100 0 "B"]
    arrows := [⟨2, 0, 1, false⟩]
    arrow_source_node := some 0
    nextId := 3 }

/-- State `dupArrowCanvas` with node `B` selected (for the delete-cascade
scenario). -/
def deleteScenarioCanvas : CanvasState :=
  { dupArrowCanvas with selected_node := some 1 }

/-- A concrete concept node (size 28 × 28 under `mTest`) for the
boundary-point scenario. -/
def nodeC8 : Node :=
  Node.make mTest 7 NodeKind.node 0 0 "X"

/-! ## Helper lemmas -/

/-- In a list whose keys (under `f`) are pairwise distinct, at most one
element has key `k`. -/
theorem countP_key_le_one {α : Type} (f : α → Nat) (k : Nat) :
    ∀ l : List α, (l.map f).Nodup → l.countP (fun x => k == f x) ≤ 1 := by
  intro l
  induction l with
  | nil => intro _; simp
  | cons a t ih =>
      intro hnd
      rw [List.map_cons, List.nodup_cons] at hnd
      rw [List.countP_cons]
      by_cases hk : k = f a
      · have hz : t.countP (fun x => k == f x) = 0 := by
          rw [List.countP_eq_zero]
          intro x hx hkx
          rw [beq_iff_eq] at hkx
          exact hnd.1 (hk ▸ hkx ▸ List.mem_map_of_mem f hx)
        have ht : (k == f a) = true := beq_iff_eq.mpr hk
        rw [hz, ht]
        simp
      · have hne : (k == f a) = false := beq_false_of_ne hk
        rw [hne]
        simp only [Bool.false_eq_true, if_false, Nat.add_zero]
        exact ih hnd.2

/-- Removing the element with key `nid` from a list with pairwise distinct
keys leaves no element with that key. -/
theorem eraseP_key_not_mem (nid : Nat) :
    ∀ l : List Node, (l.map (fun n => n.id)).Nodup →
      ∀ n ∈ l.eraseP (fun n => n.id == nid), n.id ≠ nid := by
  intro l
  induction l with
  | nil => simp
  | cons a t ih =>
      intro hnd n hn
      rw [List.map_cons, List.nodup_cons] at hnd
      by_cases ha : a.id = nid
      · rw [@List.eraseP_cons_of_pos Node a t (fun n => n.id == nid)
          (beq_iff_eq.mpr ha)] at hn
        intro hcontra
        exact hnd.1 (ha ▸ hcontra ▸ List.mem_map_of_mem _ hn)
      · rw [@List.eraseP_cons_of_neg Node a t (fun n => n.id == nid)
          (by simpa using ha)] at hn
        rcases List.mem_cons.mp hn with h | h
        · exact h ▸ ha
        · exact ih hnd.2 n h

/-! ## Claim theorems -/

/-- C7: for every node (concept or text node) and every text string `s`,
including the empty string, `set_text` recomputes the size from the
current text: width = advance width of `s` plus 18, height = line height
plus 12 — and node construction (which ends in a `set_text` call) obeys
the same formula, so the size is never stale relative to the text. -/
theorem set_text_recomputes_size (m : FontMetrics) (n : Node) (s : String) :
    (Node.set_text m n s).text = s ∧
    (Node.set_text m n s).w = (m.horizontalAdvance s : ℚ) + 18 ∧
    (Node.set_text m n s).h = (m.height : ℚ) + 12 ∧
    ∀ (id : Nat) (k : NodeKind) (x y : ℚ),
      (Node.make m id k x y s).w = (m.horizontalAdvance s : ℚ) + 18 ∧
      (Node.make m id k x y s).h = (m.height : ℚ) + 12 :=
  ⟨rfl, rfl, rfl, fun _ _ _ _ => ⟨rfl, rfl⟩⟩

/-- C4: deleting the selected node removes it from the node collection,
and the same operation removes every arrow whose source or target is that
node: afterwards no arrow references it (the filter and the removal happen
inside the one `delete_selected_node` call, with no observable state in
between). -/
theorem delete_node_cascades (s : CanvasState) (nid : Nat)
    (hsel : s.selected_node = some nid) (hnd : NodupNodeIds s) :
    (∀ n ∈ (CanvasState.delete_selected_node s).nodes, n.id ≠ nid) ∧
    (∀ a ∈ (CanvasState.delete_selected_node s).arrows,
        a.start_node ≠ nid ∧ a.end_node ≠ nid) ∧
    (nid ∈ nodeIds s →
      (CanvasState.delete_selected_node s).nodes.length + 1
        = s.nodes.length) := by
  unfold CanvasState.delete_selected_node
  rw [hsel]
  refine ⟨?_, ?_, ?_⟩
  · intro n hn
    exact eraseP_key_not_mem nid s.nodes hnd n hn
  · intro a ha
    have := List.of_mem_filter ha
    constructor
    · intro h
      simp [h] at this
    · intro h
      simp [h] at this
  · intro hmem
    rcases List.mem_map.mp hmem with ⟨n, hn, hid⟩
    exact List.length_eraseP_add_one hn (beq_iff_eq.mpr hid)

/-- C4 witness: deleting node `B` (id 1) from the concrete two-node canvas
removes it and the `A → B` arrow referencing it. -/
theorem delete_node_cascades_witness :
    deleteScenarioCanvas.selected_node = some 1 ∧
    NodupNodeIds deleteScenarioCanvas ∧
    (∀ n ∈ (CanvasState.delete_selected_node deleteScenarioCanvas).nodes,
        n.id ≠ 1) ∧
    (∀ a ∈ (CanvasState.delete_selected_node deleteScenarioCanvas).arrows,
        a.start_node ≠ 1 ∧ a.end_node ≠ 1) :=
  ⟨rfl, by decide,
   (delete_node_cascades deleteScenarioCanvas 1 rfl (by decide)).1,
   (delete_node_cascades deleteScenarioCanvas 1 rfl (by decide)).2.1⟩

/-- C5: after any selection-changing operation — `select_node` (with a
target or clearing), `select_arrow` on an arrow, or the clear-all path
`select_node(None); select_arrow(None)` — at most one entity across nodes
and arrows has `selected = true`; selecting a node forces exactly that
node's flag (and clears every arrow's), and selecting an arrow clears
every node's flag. -/
theorem selection_exclusive (s : CanvasState)
    (hn : NodupNodeIds s) (ha : NodupArrowIds s) :
    (∀ t : Option Nat,
        (∀ n ∈ (CanvasState.select_node s t).nodes,
            n.selected = (t == some n.id)) ∧
        (∀ a ∈ (CanvasState.select_node s t).arrows, a.selected = false) ∧
        countSelected (CanvasState.select_node s t) ≤ 1) ∧
    (∀ aid : Nat,
        (∀ n ∈ (CanvasState.select_arrow s (some aid)).nodes,
            n.selected = false) ∧
        (∀ a ∈ (CanvasState.select_arrow s (some aid)).arrows,
            a.selected = (aid == a.id)) ∧
        countSelected (CanvasState.select_arrow s (some aid)) ≤ 1) ∧
    countSelected
      (CanvasState.select_arrow (CanvasState.select_node s none) none) ≤ 1 := by
  refine ⟨?_, ?_, ?_⟩
  · intro t
    have hns : (CanvasState.select_node s t).nodes
        = s.nodes.map (fun n => { n with selected := t == some n.id }) := rfl
    have has : (CanvasState.select_node s t).arrows
        = s.arrows.map (fun a => { a with selected := false }) := rfl
    refine ⟨?_, ?_, ?_⟩
    · intro n hmem
      rw [hns] at hmem
      rcases List.mem_map.mp hmem with ⟨n0, _, rfl⟩
      rfl
    · intro a hmem
      rw [has] at hmem
      rcases List.mem_map.mp hmem with ⟨a0, _, rfl⟩
      rfl
    · unfold countSelected
      rw [hns, has, ← List.countP_eq_length_filter,
        ← List.countP_eq_length_filter, List.countP_map, List.countP_map]
      have hz : s.arrows.countP
          ((fun a => a.selected) ∘ fun a => { a with selected := false }) = 0 := by
        rw [List.countP_eq_zero]
        intro a _
        simp [Function.comp]
      rw [hz, Nat.add_zero]
      cases t with
      | none =>
          have hz2 : s.nodes.countP
              ((fun n => n.selected) ∘
                fun n => { n with selected := (none : Option Nat) == some n.id })
              = 0 := by
            rw [List.countP_eq_zero]
            intro n _
            simp [Function.comp]
          rw [hz2]
          exact Nat.zero_le 1
      | some nid =>
          exact countP_key_le_one (fun n => n.id) nid s.nodes hn
  · intro aid
    have hns : (CanvasState.select_arrow s (some aid)).nodes
        = s.nodes.map (fun n => { n with selected := false }) := rfl
    have has : (CanvasState.select_arrow s (some aid)).arrows
        = s.arrows.map (fun a => { a with selected := (some aid : Option Nat) == some a.id }) := rfl
    refine ⟨?_, ?_, ?_⟩
    · intro n hmem
      rw [hns] at hmem
      rcases List.mem_map.mp hmem with ⟨n0, _, rfl⟩
      rfl
    · intro a hmem
      rw [has] at hmem
      rcases List.mem_map.mp hmem with ⟨a0, _, rfl⟩
      rfl
    · unfold countSelected
      rw [hns, has, ← List.countP_eq_length_filter,
        ← List.countP_eq_length_filter, List.countP_map, List.countP_map]
      have hz : s.nodes.countP
          ((fun n => n.selected) ∘ fun n => { n with selected := false }) = 0 := by
        rw [List.countP_eq_zero]
        intro n _
        simp [Function.comp]
      rw [hz, Nat.zero_add]
      exact countP_key_le_one (fun a => a.id) aid s.arrows ha
  · unfold countSelected
    have hns : (CanvasState.select_arrow
        (CanvasState.select_node s none) none).nodes
        = s.nodes.map (fun n => { n with selected := false }) := rfl
    have has : (CanvasState.select_arrow
        (CanvasState.select_node s none) none).arrows
        = (s.arrows.map (fun a => { a with selected := false })).map
            (fun a => { a with selected := false }) := rfl
    rw [hns, has, ← List.countP_eq_length_filter,
      ← List.countP_eq_length_filter, List.countP_map, List.countP_map]
    have hz1 : s.nodes.countP
        ((fun n => n.selected) ∘ fun n => { n with selected := false }) = 0 := by
      rw [List.countP_eq_zero]
      intro n _
      simp [Function.comp]
    have hz2 : (s.arrows.map (fun a => { a with selected := false })).countP
        ((fun a => a.selected) ∘ fun a => { a with selected := false }) = 0 := by
      rw [List.countP_eq_zero]
      intro a _
      simp [Function.comp]
    rw [hz1, hz2]
    exact Nat.zero_le 1

/-- C5 witness: on the concrete canvas, selecting node 0 or arrow 2 each
leaves at most one selected entity. -/
theorem selection_exclusive_witness :
    NodupNodeIds dupArrowCanvas ∧ NodupArrowIds dupArrowCanvas ∧
    countSelected (CanvasState.select_node dupArrowCanvas (some 0)) ≤ 1 ∧
    countSelected (CanvasState.select_arrow dupArrowCanvas (some 2)) ≤ 1 :=
  ⟨by decide, by decide,
   ((selection_exclusive dupArrowCanvas (by decide) (by decide)).1 (some 0)).2.2,
   ((selection_exclusive dupArrowCanvas (by decide) (by decide)).2.1 2).2.2⟩

/-- C6: completing the linking gesture on the pending source node itself
is a silent no-op on the arrow collection (the arrow count is unchanged);
completing it on a distinct node appends the new arrow. -/
theorem self_link_noop (s : CanvasState) (pos : ℚ × ℚ) (n : Node)
    (hhit : CanvasState.findTopmostNode s pos = some n) :
    (s.arrow_source_node = some n.id →
        (CanvasState.mousePressRight s pos).arrows = s.arrows ∧
        (CanvasState.mousePressRight s pos).arrows.length
          = s.arrows.length) ∧
    (∀ src, s.arrow_source_node = some src → src ≠ n.id →
        (CanvasState.mousePressRight s pos).arrows
          = s.arrows ++ [{ id := s.nextId, start_node := src,
                           end_node := n.id, selected := false }]) := by
  constructor
  · intro hsrc
    have harr : (CanvasState.mousePressRight s pos).arrows = s.arrows := by
      simp [CanvasState.mousePressRight, hhit, hsrc]
    exact ⟨harr, by rw [harr]⟩
  · intro src hsrc hne
    simp [CanvasState.mousePressRight, hhit, hsrc, bne_iff_ne, hne]

/-- C6 witness: on the concrete canvas where node `A` (id 0) is the
pending arrow source, right-clicking `A` again leaves the arrow
collection unchanged. -/
theorem self_link_noop_witness :
    dupArrowCanvas.arrow_source_node = some 0 ∧
    (CanvasState.mousePressRight dupArrowCanvas (0, 0)).arrows
      = dupArrowCanvas.arrows := by
  have hhit : CanvasState.findTopmostNode dupArrowCanvas (0, 0)
      = some (Node.make mTest 0 NodeKind.node 0 0 "A") := by
    norm_num [CanvasState.findTopmostNode, dupArrowCanvas, emptyCanvas,
      Node.contains, Node.make, Node.set_text, mTest, List.find?]
  exact ⟨rfl, ((self_link_noop dupArrowCanvas (0, 0) _ hhit).1 rfl).1⟩

/-- C10: completing the linking gesture between distinct nodes appends a
new arrow unconditionally — no deduplication: the count of arrows with the
same (source, target) pair increases by one even when such an arrow
already exists. -/
theorem arrow_creation_never_dedups (s : CanvasState) (pos : ℚ × ℚ)
    (n : Node) (src : Nat)
    (hhit : CanvasState.findTopmostNode s pos = some n)
    (hsrc : s.arrow_source_node = some src) (hne : src ≠ n.id) :
    (CanvasState.mousePressRight s pos).arrows
      = s.arrows ++ [{ id := s.nextId, start_node := src,
                       end_node := n.id, selected := false }] ∧
    countPair (CanvasState.mousePressRight s pos).arrows src n.id
      = countPair s.arrows src n.id + 1 := by
  have happ : (CanvasState.mousePressRight s pos).arrows
      = s.arrows ++ [{ id := s.nextId, start_node := src,
                       end_node := n.id, selected := false }] := by
    simp [CanvasState.mousePressRight, hhit, hsrc, bne_iff_ne, hne]
  refine ⟨happ, ?_⟩
  rw [happ]
  unfold countPair
  rw [List.filter_append]
  simp

/-- C10 witness: on the concrete canvas an arrow `0 → 1` already exists;
completing the gesture from node 0 to node 1 again yields two such
arrows. -/
theorem arrow_creation_never_dedups_witness :
    countPair dupArrowCanvas.arrows 0 1 = 1 ∧
    countPair (CanvasState.mousePressRight dupArrowCanvas (100, 0)).arrows 0 1
      = 2 := by
  have hhit : CanvasState.findTopmostNode dupArrowCanvas (100, 0)
      = some (Node.make mTest 1 NodeKind.node 100 0 "B") := by
    norm_num [CanvasState.findTopmostNode, dupArrowCanvas, emptyCanvas,
      Node.contains, Node.make, Node.set_text, mTest, List.find?]
  have h1 : countPair dupArrowCanvas.arrows 0 1 = 1 := by decide
  have h2 : countPair (CanvasState.mousePressRight dupArrowCanvas (100, 0)).arrows 0 1
      = countPair dupArrowCanvas.arrows 0 1 + 1 :=
    (arrow_creation_never_dedups dupArrowCanvas (100, 0)
      (Node.make mTest 1 NodeKind.node 100 0 "B") 0 hhit rfl (by decide)).2
  exact ⟨h1, by rw [h2, h1]⟩

/-- C2 (refuting evaluation): deleting a node while it is the pending
arrow-link source and then completing the linking gesture creates an arrow
whose source id (1, the deleted node `B`) is not in the node collection
(`[0]`): the no-dangling-endpoint invariant is violated by this reachable
sequence. -/
theorem dangling_arrow_reachable :
    danglingScenario.arrows
        = [{ id := 2, start_node := 1, end_node := 0, selected := false }] ∧
    nodeIds danglingScenario = [0] ∧
    ∃ a ∈ danglingScenario.arrows,
      a.start_node ∉ nodeIds danglingScenario := by
  have h1 : danglingScenario.arrows
      = [{ id := 2, start_node := 1, end_node := 0, selected := false }] := by
    norm_num [danglingScenario, twoNodeCanvas, emptyCanvas,
      CanvasState.mousePressRight, CanvasState.mousePressLeft,
      CanvasState.delete_selected_node, CanvasState.add_node,
      CanvasState.findTopmostNode, CanvasState.findTopmostArrow,
      CanvasState.select_node, CanvasState.select_arrow,
      CanvasState.getNode, Node.contains, Node.make, Node.set_text,
      mTest, List.find?]
  have h2 : nodeIds danglingScenario = [0] := by
    norm_num [danglingScenario, twoNodeCanvas, emptyCanvas,
      CanvasState.mousePressRight, CanvasState.mousePressLeft,
      CanvasState.delete_selected_node, CanvasState.add_node,
      CanvasState.findTopmostNode, CanvasState.findTopmostArrow,
      CanvasState.select_node, CanvasState.select_arrow,
      CanvasState.getNode, Node.contains, Node.make, Node.set_text,
      mTest, List.find?, nodeIds]
  refine ⟨h1, h2,
    ⟨{ id := 2, start_node := 1, end_node := 0, selected := false }, ?_, ?_⟩⟩
  · rw [h1]
    exact List.mem_singleton.mpr rfl
  · rw [h2]
    decide

/-- Python list indexing fails (raises `IndexError`) exactly for indices
outside `[-len, len)`. -/
theorem pyIndex_eq_none_iff {α : Type} (l : List α) (i : Int) :
    pyIndex l i = none ↔
      i < -(l.length : Int) ∨ (l.length : Int) ≤ i := by
  simp only [pyIndex]
  by_cases hi : i < 0
  · simp only [hi, if_true]
    by_cases hj : 0 ≤ (l.length : Int) + i
    · rw [if_pos hj, List.get?_eq_none]
      omega
    · rw [if_neg hj]
      constructor
      · intro _
        omega
      · intro _
        rfl
  · simp only [hi, if_false]
    rw [if_pos (by omega : (0:Int) ≤ i), List.get?_eq_none]
    omega

/-- If any stored arrow has an unresolvable index, the arrow loop of
`load_diagram` ends with the error flag raised (the `IndexError`
propagates). -/
theorem buildArrows_err_of_bad (ns : List Node) :
    ∀ (ads : List ArrowDict) (aid : Nat),
      (∃ ad ∈ ads,
        pyIndex ns ad.start = none ∨ pyIndex ns ad.endIdx = none) →
      (buildArrows ns aid ads).2.2 = true := by
  intro ads
  induction ads with
  | nil =>
      intro aid h
      rcases h with ⟨ad, hmem, _⟩
      cases hmem
  | cons ad rest ih =>
      intro aid h
      rcases hos : pyIndex ns ad.start with _ | sn
      · simp [buildArrows, hos]
      · rcases hoe : pyIndex ns ad.endIdx with _ | en
        · simp [buildArrows, hos, hoe]
        · have hrest : ∃ ad ∈ rest,
              pyIndex ns ad.start = none ∨ pyIndex ns ad.endIdx = none := by
            rcases h with ⟨ad', hmem, hbad⟩
            rcases List.mem_cons.mp hmem with rfl | hmem'
            · rcases hbad with hb | hb
              · rw [hos] at hb
                cases hb
              · rw [hoe] at hb
                cases hb
            · exact ⟨ad', hmem', hbad⟩
          have htail := ih (aid + 1) hrest
          rcases hba : buildArrows ns (aid + 1) rest with ⟨ars, aid', err⟩
          rw [hba] at htail
          simp only at htail
          simp [buildArrows, hos, hoe, hba, htail]

/-- C1 (amended): if some stored arrow's `start` or `end` index is outside
`[-nodeCount, nodeCount)` (Python resolves indices in `[-nodeCount, 0)`
from the end of the list without error), the load raises a fatal error
that propagates to the caller — but the previously open document is NOT
left untouched: the node and arrow collections were cleared at the start
of the load, and at the moment the error is raised the in-memory node
collection holds the freshly parsed nodes. -/
theorem load_error_replaces_document (m : FontMetrics) (s : CanvasState)
    (d : DiagramData)
    (hbad : ∃ ad ∈ d.arrows,
        ad.start < -((buildNodes m s.nextId d.nodes).1.length : Int) ∨
        ((buildNodes m s.nextId d.nodes).1.length : Int) ≤ ad.start ∨
        ad.endIdx < -((buildNodes m s.nextId d.nodes).1.length : Int) ∨
        ((buildNodes m s.nextId d.nodes).1.length : Int) ≤ ad.endIdx) :
    (load_diagram m s d).2 = true ∧
    (load_diagram m s d).1.nodes = (buildNodes m s.nextId d.nodes).1 := by
  rcases hbn : buildNodes m s.nextId d.nodes with ⟨ns, nid⟩
  have hbad' : ∃ ad ∈ d.arrows,
      pyIndex ns ad.start = none ∨ pyIndex ns ad.endIdx = none := by
    rcases hbad with ⟨ad, hmem, hcase⟩
    rw [hbn] at hcase
    simp only at hcase
    refine ⟨ad, hmem, ?_⟩
    rcases hcase with hc | hc | hc | hc
    · exact Or.inl ((pyIndex_eq_none_iff ns ad.start).mpr (Or.inl hc))
    · exact Or.inl ((pyIndex_eq_none_iff ns ad.start).mpr (Or.inr hc))
    · exact Or.inr ((pyIndex_eq_none_iff ns ad.endIdx).mpr (Or.inl hc))
    · exact Or.inr ((pyIndex_eq_none_iff ns ad.endIdx).mpr (Or.inr hc))
  have herr := buildArrows_err_of_bad ns d.arrows nid hbad'
  rcases hba : buildArrows ns nid d.arrows with ⟨ars, aid, err⟩
  rw [hba] at herr
  simp only at herr
  simp [load_diagram, hbn, hba, herr]

/-- C1 witness: the spec's out-of-range scenario (two stored nodes, arrow
`{start: 5, end: 0}`) loaded over a canvas holding an older document:
the error is raised and the node collection afterwards is the parsed
two-node list, not the old document. -/
theorem load_error_replaces_document_witness :
    (∃ ad ∈ dataOutOfRange.arrows,
        ad.start
            < -((buildNodes mTest oldDocCanvas.nextId
                  dataOutOfRange.nodes).1.length : Int) ∨
        ((buildNodes mTest oldDocCanvas.nextId
            dataOutOfRange.nodes).1.length : Int) ≤ ad.start ∨
        ad.endIdx
            < -((buildNodes mTest oldDocCanvas.nextId
                  dataOutOfRange.nodes).1.length : Int) ∨
        ((buildNodes mTest oldDocCanvas.nextId
            dataOutOfRange.nodes).1.length : Int) ≤ ad.endIdx) ∧
    (load_diagram mTest oldDocCanvas dataOutOfRange).2 = true ∧
    (load_diagram mTest oldDocCanvas dataOutOfRange).1.nodes
      = (buildNodes mTest oldDocCanvas.nextId dataOutOfRange.nodes).1 :=
  ⟨by decide,
   (load_error_replaces_document mTest oldDocCanvas dataOutOfRange
      (by decide)).1,
   (load_error_replaces_document mTest oldDocCanvas dataOutOfRange
      (by decide)).2⟩

/-- C1 counterexample: loading the spec's out-of-range document
(`arrows: [{start: 5, end: 0}]`, two nodes) over a previously open
document raises the error but does NOT leave the open document untouched
(the node collection changes); and an arrow index of `-1` — also outside
`[0, nodeCount)` — raises no error at all (Python resolves it from the end
of the list). -/
theorem load_out_of_range_counterexample :
    (load_diagram mTest oldDocCanvas dataOutOfRange).2 = true ∧
    (load_diagram mTest oldDocCanvas dataOutOfRange).1.nodes
        ≠ oldDocCanvas.nodes ∧
    (load_diagram mTest oldDocCanvas dataNegIndex).2 = false :=
  ⟨by decide, by decide, by decide⟩

/-- C8: if the target point equals the node's center, `boundary_point`
returns the center unchanged (no division by zero); otherwise the result
is the center displaced along the ray toward the target by a single
positive scale `t` (the smaller of the per-axis scales, an absent axis
counting as infinite) applied to both axes, and it lies exactly on the
rectangle's boundary: within both half-extents and attaining one of
them. -/
theorem boundary_point_exits_rect (n : Node) (target : ℚ × ℚ)
    (hw : 0 < n.w) (hh : 0 < n.h) :
    (target = n.center → n.boundary_point target = n.center) ∧
    (target ≠ n.center →
      ∃ t : ℚ, 0 < t ∧
        n.boundary_point target
          = (n.center.1 + (target.1 - n.center.1) * t,
             n.center.2 + (target.2 - n.center.2) * t) ∧
        |(target.1 - n.center.1) * t| ≤ n.w / 2 ∧
        |(target.2 - n.center.2) * t| ≤ n.h / 2 ∧
        (|(target.1 - n.center.1) * t| = n.w / 2 ∨
         |(target.2 - n.center.2) * t| = n.h / 2)) := by
  constructor
  · intro ht
    rw [ht]
    simp only [Node.boundary_point]
    rw [if_pos ⟨sub_self (n.x + n.w / 2), sub_self (n.y + n.h / 2)⟩]
    rfl
  · intro hne
    have hnand : ¬(target.1 - (n.x + n.w / 2) = 0 ∧
        target.2 - (n.y + n.h / 2) = 0) := by
      rintro ⟨h1, h2⟩
      apply hne
      have e1 : target.1 = n.center.1 := by
        show target.1 = n.x + n.w / 2
        linarith
      have e2 : target.2 = n.center.2 := by
        show target.2 = n.y + n.h / 2
        linarith
      exact Prod.ext e1 e2
    by_cases hdx : target.1 - (n.x + n.w / 2) = 0
    · have hdy : target.2 - (n.y + n.h / 2) ≠ 0 := fun h => hnand ⟨hdx, h⟩
      have habs : (0:ℚ) < |target.2 - (n.y + n.h / 2)| := abs_pos.mpr hdy
      have key : |(target.2 - (n.y + n.h / 2)) *
          (n.h / 2 / |target.2 - (n.y + n.h / 2)|)| = n.h / 2 := by
        rw [abs_mul, abs_div, abs_abs,
          abs_of_pos (show (0:ℚ) < n.h / 2 by linarith),
          mul_comm, div_mul_cancel₀ _ (ne_of_gt habs)]
      have hbp : n.boundary_point target
          = (n.x + n.w / 2
              + (target.1 - (n.x + n.w / 2))
                * (n.h / 2 / |target.2 - (n.y + n.h / 2)|),
             n.y + n.h / 2
              + (target.2 - (n.y + n.h / 2))
                * (n.h / 2 / |target.2 - (n.y + n.h / 2)|)) := by
        simp only [Node.boundary_point]
        rw [if_neg hnand, if_pos hdx]
      refine ⟨n.h / 2 / |target.2 - (n.y + n.h / 2)|,
        div_pos (by linarith) habs, hbp, ?_, ?_, ?_⟩
      · show |(target.1 - (n.x + n.w / 2))
            * (n.h / 2 / |target.2 - (n.y + n.h / 2)|)| ≤ n.w / 2
        rw [hdx, zero_mul, abs_zero]
        linarith
      · show |(target.2 - (n.y + n.h / 2))
            * (n.h / 2 / |target.2 - (n.y + n.h / 2)|)| ≤ n.h / 2
        rw [key]
      · right
        show |(target.2 - (n.y + n.h / 2))
            * (n.h / 2 / |target.2 - (n.y + n.h / 2)|)| = n.h / 2
        exact key
    · by_cases hdy : target.2 - (n.y + n.h / 2) = 0
      · have habs : (0:ℚ) < |target.1 - (n.x + n.w / 2)| := abs_pos.mpr hdx
        have key : |(target.1 - (n.x + n.w / 2)) *
            (n.w / 2 / |target.1 - (n.x + n.w / 2)|)| = n.w / 2 := by
          rw [abs_mul, abs_div, abs_abs,
            abs_of_pos (show (0:ℚ) < n.w / 2 by linarith),
            mul_comm, div_mul_cancel₀ _ (ne_of_gt habs)]
        have hbp : n.boundary_point target
            = (n.x + n.w / 2
                + (target.1 - (n.x + n.w / 2))
                  * (n.w / 2 / |target.1 - (n.x + n.w / 2)|),
               n.y + n.h / 2
                + (target.2 - (n.y + n.h / 2))
                  * (n.w / 2 / |target.1 - (n.x + n.w / 2)|)) := by
          simp only [Node.boundary_point]
          rw [if_neg hnand, if_neg hdx, if_pos hdy]
        refine ⟨n.w / 2 / |target.1 - (n.x + n.w / 2)|,
          div_pos (by linarith) habs, hbp, ?_, ?_, ?_⟩
        · show |(target.1 - (n.x + n.w / 2))
              * (n.w / 2 / |target.1 - (n.x + n.w / 2)|)| ≤ n.w / 2
          rw [key]
        · show |(target.2 - (n.y + n.h / 2))
              * (n.w / 2 / |target.1 - (n.x + n.w / 2)|)| ≤ n.h / 2
          rw [hdy, zero_mul, abs_zero]
          linarith
        · left
          show |(target.1 - (n.x + n.w / 2))
              * (n.w / 2 / |target.1 - (n.x + n.w / 2)|)| = n.w / 2
          exact key
      · have habsx : (0:ℚ) < |target.1 - (n.x + n.w / 2)| := abs_pos.mpr hdx
        have habsy : (0:ℚ) < |target.2 - (n.y + n.h / 2)| := abs_pos.mpr hdy
        have hs1 : (0:ℚ) < n.w / 2 / |target.1 - (n.x + n.w / 2)| :=
          div_pos (by linarith) habsx
        have hs2 : (0:ℚ) < n.h / 2 / |target.2 - (n.y + n.h / 2)| :=
          div_pos (by linarith) habsy
        have htpos : (0:ℚ) < min (n.w / 2 / |target.1 - (n.x + n.w / 2)|)
            (n.h / 2 / |target.2 - (n.y + n.h / 2)|) := lt_min hs1 hs2
        have hx1 : |target.1 - (n.x + n.w / 2)|
            * (n.w / 2 / |target.1 - (n.x + n.w / 2)|) = n.w / 2 := by
          rw [mul_comm, div_mul_cancel₀ _ (ne_of_gt habsx)]
        have hy1 : |target.2 - (n.y + n.h / 2)|
            * (n.h / 2 / |target.2 - (n.y + n.h / 2)|) = n.h / 2 := by
          rw [mul_comm, div_mul_cancel₀ _ (ne_of_gt habsy)]
        have hbp : n.boundary_point target
            = (n.x + n.w / 2
                + (target.1 - (n.x + n.w / 2))
                  * min (n.w / 2 / |target.1 - (n.x + n.w / 2)|)
                      (n.h / 2 / |target.2 - (n.y + n.h / 2)|),
               n.y + n.h / 2
                + (target.2 - (n.y + n.h / 2))
                  * min (n.w / 2 / |target.1 - (n.x + n.w / 2)|)
                      (n.h / 2 / |target.2 - (n.y + n.h / 2)|)) := by
          simp only [Node.boundary_point]
          rw [if_neg hnand, if_neg hdx, if_neg hdy]
        have habsmul : forall d : ℚ, |d * min (n.w / 2 / |target.1 - (n.x + n.w / 2)|)
            (n.h / 2 / |target.2 - (n.y + n.h / 2)|)|
            = |d| * min (n.w / 2 / |target.1 - (n.x + n.w / 2)|)
                (n.h / 2 / |target.2 - (n.y + n.h / 2)|) := by
          intro d
          rw [abs_mul, abs_of_pos htpos]
        refine ⟨min (n.w / 2 / |target.1 - (n.x + n.w / 2)|)
            (n.h / 2 / |target.2 - (n.y + n.h / 2)|), htpos, hbp, ?_, ?_, ?_⟩
        · show |(target.1 - (n.x + n.w / 2))
              * min (n.w / 2 / |target.1 - (n.x + n.w / 2)|)
                  (n.h / 2 / |target.2 - (n.y + n.h / 2)|)| ≤ n.w / 2
          rw [habsmul]
          calc |target.1 - (n.x + n.w / 2)|
              * min (n.w / 2 / |target.1 - (n.x + n.w / 2)|)
                  (n.h / 2 / |target.2 - (n.y + n.h / 2)|)
              ≤ |target.1 - (n.x + n.w / 2)|
                  * (n.w / 2 / |target.1 - (n.x + n.w / 2)|) :=
                mul_le_mul_of_nonneg_left (min_le_left _ _) (abs_nonneg _)
            _ = n.w / 2 := hx1
        · show |(target.2 - (n.y + n.h / 2))
              * min (n.w / 2 / |target.1 - (n.x + n.w / 2)|)
                  (n.h / 2 / |target.2 - (n.y + n.h / 2)|)| ≤ n.h / 2
          rw [habsmul]
          calc |target.2 - (n.y + n.h / 2)|
              * min (n.w / 2 / |target.1 - (n.x + n.w / 2)|)
                  (n.h / 2 / |target.2 - (n.y + n.h / 2)|)
              ≤ |target.2 - (n.y + n.h / 2)|
                  * (n.h / 2 / |target.2 - (n.y + n.h / 2)|) :=
                mul_le_mul_of_nonneg_left (min_le_right _ _) (abs_nonneg _)
            _ = n.h / 2 := hy1
        · rcases min_cases (n.w / 2 / |target.1 - (n.x + n.w / 2)|)
              (n.h / 2 / |target.2 - (n.y + n.h / 2)|) with ⟨heq, _⟩ | ⟨heq, _⟩
          · left
            show |(target.1 - (n.x + n.w / 2))
                * min (n.w / 2 / |target.1 - (n.x + n.w / 2)|)
                    (n.h / 2 / |target.2 - (n.y + n.h / 2)|)| = n.w / 2
            rw [habsmul, heq, hx1]
          · right
            show |(target.2 - (n.y + n.h / 2))
                * min (n.w / 2 / |target.1 - (n.x + n.w / 2)|)
                    (n.h / 2 / |target.2 - (n.y + n.h / 2)|)| = n.h / 2
            rw [habsmul, heq, hy1]

/-- C8 witness: the concrete 28 × 28 node, aimed at its own center —
`boundary_point` returns the center unchanged. -/
theorem boundary_point_exits_rect_witness :
    (0:ℚ) < nodeC8.w ∧ (0:ℚ) < nodeC8.h ∧
    nodeC8.boundary_point nodeC8.center = nodeC8.center := by
  have hw : (0:ℚ) < nodeC8.w := by
    norm_num [nodeC8, Node.make, Node.set_text, mTest]
  have hh : (0:ℚ) < nodeC8.h := by
    norm_num [nodeC8, Node.make, Node.set_text, mTest]
  exact ⟨hw, hh,
    (boundary_point_exits_rect nodeC8 nodeC8.center hw hh).1 rfl⟩

/-- Lookup on a cons cell of the dict. -/
theorem dictGet_cons (k1 : Nat) (vs : List Nat)
    (rest : List (Nat × List Nat)) (k : Nat) :
    dictGet ((k1, vs) :: rest) k = if k1 = k then vs else dictGet rest k := by
  by_cases h : k1 = k
  · simp [dictGet, List.find?, h]
  · have hb : (k1 == k) = false := beq_false_of_ne h
    simp [dictGet, List.find?, hb, h]

/-- Lookup on the empty dict. -/
theorem dictGet_nil (k : Nat) : dictGet [] k = [] := rfl

/-- Lookup after `addOutgoing`: the value is appended at the stored
key, other keys are untouched. -/
theorem dictGet_addOutgoing (k1 v k : Nat) :
    ∀ d : List (Nat × List Nat),
      dictGet (addOutgoing d k1 v) k
        = if k1 = k then dictGet d k ++ [v] else dictGet d k := by
  intro d
  induction d with
  | nil =>
      have ha : addOutgoing [] k1 v = [(k1, [v])] := rfl
      rw [ha, dictGet_cons, dictGet_nil]
      by_cases h : k1 = k
      · simp [h]
      · simp [h]
  | cons p rest ih =>
      obtain ⟨k2, vs⟩ := p
      by_cases h1 : k2 = k1
      · subst h1
        have ha : addOutgoing ((k2, vs) :: rest) k2 v
            = (k2, vs ++ [v]) :: rest := by
          simp [addOutgoing]
        rw [ha, dictGet_cons, dictGet_cons]
        by_cases h2 : k2 = k
        · simp [h2]
        · simp [h2]
      · have ha : addOutgoing ((k2, vs) :: rest) k1 v
            = (k2, vs) :: addOutgoing rest k1 v := by
          simp [addOutgoing, h1]
        rw [ha, dictGet_cons, dictGet_cons, ih]
        by_cases h2 : k2 = k
        · subst h2
          have h3 : ¬k1 = k2 := fun hc => h1 hc.symm
          simp [h3]
        · simp [h2]
/-- The `outgoing` dict lookup yields exactly the targets of the arrows
leaving the given node, in arrow order. -/
theorem dictGet_outgoingDict (arrows : List Arrow) (k : Nat) :
    dictGet (outgoingDict arrows) k
      = (arrows.filter (fun a => a.start_node == k)).map
          (fun a => a.end_node) := by
  suffices h : ∀ d : List (Nat × List Nat),
      dictGet (arrows.foldl
          (fun d a => addOutgoing d a.start_node a.end_node) d) k
        = dictGet d k ++ (arrows.filter (fun a => a.start_node == k)).map
            (fun a => a.end_node) by
    have h0 := h []
    simpa [outgoingDict, dictGet_nil] using h0
  induction arrows with
  | nil =>
      intro d
      simp
  | cons a rest ih =>
      intro d
      rw [List.foldl_cons, ih (addOutgoing d a.start_node a.end_node),
        dictGet_addOutgoing]
      by_cases h : a.start_node = k
      · simp [h, List.filter_cons]
      · simp [h, List.filter_cons]

/-- A guarded `flatMap` is a `flatMap` over the filtered list. -/
theorem flatMap_guard_eq_filter_flatMap {α β : Type} (l : List α)
    (p : α → Bool) (F : α → List β) :
    (l.flatMap fun x => if p x then F x else [])
      = (l.filter p).flatMap F := by
  induction l with
  | nil => rfl
  | cons a t ih =>
      by_cases h : p a
      · simp [List.filter_cons, h, ih]
      · simp [List.filter_cons, h, ih]

/-- Mapping then flat-mapping composes the functions. -/
theorem flatMap_over_map {α β γ : Type} (l : List α) (f : α → β)
    (g : β → List γ) :
    (l.map f).flatMap g = l.flatMap fun x => g (f x) := by
  induction l with
  | nil => rfl
  | cons a t ih => simp [ih]

/-- C9: the triple export emits exactly one line
`"{A.text}, {M.text}, {B.text}"` for every concept node `A` (in document
order), every arrow `A → M` onto a text node `M`, and every arrow `M → B`
onto a concept node `B`; chains of any other shape contribute nothing.
Stated under the no-dangling-endpoint invariant, where the id-resolving
model coincides with Python's dict of node objects. -/
theorem export_matches_triple_pattern (s : CanvasState)
    (_hwf : WFArrows s) :
    export_node_textnode_node_tuples s = tripleExportSpec s := by
  unfold export_node_textnode_node_tuples tripleExportSpec
  simp only [dictGet_outgoingDict, flatMap_over_map]
  rw [flatMap_guard_eq_filter_flatMap]

/-- C9 witness: the spec's scenario — concept `Node 1`, text `Text 1`,
concept `Node 2` chained by two arrows — exports exactly the single line
`"Node 1, Text 1, Node 2"`. -/
theorem export_matches_triple_pattern_witness :
    WFArrows tripleScenario ∧
    export_node_textnode_node_tuples tripleScenario
      = tripleExportSpec tripleScenario ∧
    export_node_textnode_node_tuples tripleScenario
      = ["Node 1, Text 1, Node 2"] :=
  ⟨by decide, export_matches_triple_pattern tripleScenario (by decide),
   by decide⟩

/-- A found node index is within bounds. -/
theorem indexOf_some_lt (nid : Nat) :
    ∀ (nodes : List Node) (i : Nat),
      indexOfNode nodes nid = some i → i < nodes.length := by
  intro nodes
  induction nodes with
  | nil => intro i h; cases h
  | cons n rest ih =>
      intro i h
      unfold indexOfNode at h
      by_cases hn : n.id = nid
      · rw [if_pos hn] at h
        cases h
        simp
      · rw [if_neg hn] at h
        rcases hi : indexOfNode rest nid with _ | j
        · rw [hi] at h
          cases h
        · rw [hi] at h
          cases h
          have := ih j hi
          simp
          omega

/-- A node id present in the store is found by the index dict. -/
theorem indexOf_isSome_of_mem (nid : Nat) :
    ∀ nodes : List Node, nid ∈ nodes.map (fun n => n.id) →
      ∃ i, indexOfNode nodes nid = some i := by
  intro nodes
  induction nodes with
  | nil => intro h; cases h
  | cons n rest ih =>
      intro h
      by_cases hn : n.id = nid
      · exact ⟨0, by simp [indexOfNode, hn]⟩
      · have hmem : nid ∈ rest.map (fun n => n.id) := by
          rcases List.mem_cons.mp h with h' | h'
          · exact absurd h'.symm hn
          · exact h'
        obtain ⟨i, hi⟩ := ih hmem
        exact ⟨i + 1, by simp [indexOfNode, hn, hi]⟩

/-- Python indexing with a nonnegative index is plain list lookup. -/
theorem pyIndex_ofNat {α : Type} (l : List α) (i : Nat) :
    pyIndex l (i : Int) = l.get? i := by
  simp only [pyIndex]
  rw [if_neg (by omega : ¬(i : Int) < 0), if_pos (by omega : (0:Int) ≤ (i : Int))]
  simp

/-- Rebuilding preserves the node count. -/
theorem rebuild_length (m : FontMetrics) :
    ∀ (l : List Node) (nid : Nat), (rebuild m nid l).length = l.length := by
  intro l
  induction l with
  | nil => intro nid; rfl
  | cons n t ih => intro nid; simp [rebuild, ih]

/-- The `i`-th rebuilt node is the `i`-th original, reconstructed with
fresh id `nid + i`. -/
theorem rebuild_get? (m : FontMetrics) :
    ∀ (l : List Node) (nid i : Nat),
      (rebuild m nid l).get? i
        = (l.get? i).map
            (fun n => Node.make m (nid + i) n.kind n.x n.y n.text) := by
  intro l
  induction l with
  | nil => intro nid i; rfl
  | cons n t ih =>
      intro nid i
      cases i with
      | zero => simp [rebuild]
      | succ j =>
          simp only [rebuild, List.get?_cons_succ, ih (nid + 1) j]
          have : nid + 1 + j = nid + (j + 1) := by omega
          rw [this]

/-- Rebuilding a node list leaves its serialized form unchanged
(`Node.make` preserves kind, position and text). -/
theorem rebuild_map_to_dict (m : FontMetrics) :
    ∀ (l : List Node) (nid : Nat),
      (rebuild m nid l).map node_to_dict = l.map node_to_dict := by
  intro l
  induction l with
  | nil => intro nid; rfl
  | cons n t ih =>
      intro nid
      simp only [rebuild, List.map_cons, ih (nid + 1)]
      rfl

/-- In the rebuilt list the node with id `nid + i` sits at index `i`. -/
theorem indexOf_rebuild (m : FontMetrics) :
    ∀ (l : List Node) (nid i : Nat), i < l.length →
      indexOfNode (rebuild m nid l) (nid + i) = some i := by
  intro l
  induction l with
  | nil => intro nid i h; cases h
  | cons n t ih =>
      intro nid i h
      cases i with
      | zero => simp [rebuild, indexOfNode, Node.make, Node.set_text]
      | succ j =>
          have hcond : ¬(Node.make m nid n.kind n.x n.y n.text).id
              = nid + (j + 1) := by
            show ¬nid = nid + (j + 1)
            omega
          have hj : j < t.length := by simpa using Nat.lt_of_succ_lt_succ (by simpa using h)
          have hrec := ih (nid + 1) j hj
          simp only [rebuild, indexOfNode, if_neg hcond]
          have : nid + 1 + j = nid + (j + 1) := by omega
          rw [← this, hrec]
          rfl

/-- The node loop of `load_diagram`, fed the dicts `save_diagram` wrote,
reconstructs every node in order (both tags are recognized) and advances
the fresh-id counter by the node count. -/
theorem buildNodes_map_to_dict (m : FontMetrics) :
    ∀ (l : List Node) (nid : Nat),
      buildNodes m nid (l.map node_to_dict)
        = (rebuild m nid l, nid + l.length) := by
  intro l
  induction l with
  | nil => intro nid; simp [buildNodes, rebuild]
  | cons n t ih =>
      intro nid
      cases hk : n.kind with
      | node =>
          have h1 : (node_to_dict n).type = "node" := by
            simp [node_to_dict, hk]
          simp only [List.map_cons, buildNodes, h1, if_pos, ih (nid + 1)]
          simp [rebuild, hk, Prod.mk.injEq]
          constructor
          · rfl
          · omega
      | textnode =>
          have h1 : (node_to_dict n).type = "textnode" := by
            simp [node_to_dict, hk]
          simp only [List.map_cons, buildNodes, h1, ih (nid + 1)]
          simp [rebuild, hk, Prod.mk.injEq]
          constructor
          · rfl
          · omega

/-- A successful `Arrow.to_dict` is of the `ArrowSaved` shape. -/
theorem arrow_to_dict_inv (nodes : List Node) (a : Arrow) (ad : ArrowDict)
    (h : arrow_to_dict nodes a = some ad) : ArrowSaved nodes a ad := by
  rcases hsi : indexOfNode nodes a.start_node with _ | si
  · simp [arrow_to_dict, hsi] at h
  · rcases hei : indexOfNode nodes a.end_node with _ | ei
    · simp [arrow_to_dict, hsi, hei] at h
    · simp only [arrow_to_dict, hsi, hei, Option.bind_eq_bind,
        Option.some_bind] at h
      cases h
      exact ⟨si, ei, hsi, hei, rfl⟩

/-- The arrows list comprehension succeeds when every `Arrow.to_dict`
does, producing exactly the pointwise dicts. -/
theorem atd_some_of_forall₂ (nodes : List Node) :
    ∀ {arrows : List Arrow} {ds : List ArrowDict},
      List.Forall₂ (fun a ad => arrow_to_dict nodes a = some ad) arrows ds →
      arrows_to_dicts nodes arrows = some ds := by
  intro arrows
  induction arrows with
  | nil =>
      intro ds h
      cases h
      rfl
  | cons a t ih =>
      intro ds h
      cases h with
      | cons hab htail =>
          simp [arrows_to_dicts, hab, ih htail]

/-- If every arrow serializes, the whole arrows list serializes, with the
pointwise correspondence. -/
theorem atd_some_of_all (nodes : List Node) :
    ∀ arrows : List Arrow,
      (∀ a ∈ arrows, ∃ dd, arrow_to_dict nodes a = some dd) →
      ∃ ds, arrows_to_dicts nodes arrows = some ds ∧
        List.Forall₂ (fun a ad => arrow_to_dict nodes a = some ad)
          arrows ds := by
  intro arrows
  induction arrows with
  | nil => intro _; exact ⟨[], rfl, List.Forall₂.nil⟩
  | cons a t ih =>
      intro h
      obtain ⟨dd, hdd⟩ := h a (List.mem_cons_self a t)
      obtain ⟨ds, hds, hfa⟩ :=
        ih (fun a' ha' => h a' (List.mem_cons_of_mem a ha'))
      exact ⟨dd :: ds, by simp [arrows_to_dicts, hdd, hds],
        List.Forall₂.cons hdd hfa⟩

/-- Every right element of a `Forall₂` has a related left element. -/
theorem forall₂_mem_right {α β : Type} {R : α → β → Prop} :
    ∀ {l1 : List α} {l2 : List β}, List.Forall₂ R l1 l2 →
      ∀ b ∈ l2, ∃ a ∈ l1, R a b := by
  intro l1 l2 h
  induction h with
  | nil =>
      intro b hb
      cases hb
  | cons hab htail ih =>
      intro b hb
      rcases List.mem_cons.mp hb with rfl | hb'
      · exact ⟨_, List.mem_cons_self _ _, hab⟩
      · obtain ⟨a, ha, hr⟩ := ih b hb'
        exact ⟨a, List.mem_cons_of_mem _ ha, hr⟩

/-- Flip a `Forall₂`, strengthening pointwise with membership. -/
theorem forall₂_flip_of_mem {α β : Type} {R : α → β → Prop}
    {S : β → α → Prop} :
    ∀ {l1 : List α} {l2 : List β}, List.Forall₂ R l1 l2 →
      (∀ a b, a ∈ l1 → b ∈ l2 → R a b → S b a) →
      List.Forall₂ S l2 l1 := by
  intro l1 l2 h
  induction h with
  | nil =>
      intro _
      exact List.Forall₂.nil
  | cons hab htail ih =>
      intro H
      exact List.Forall₂.cons
        (H _ _ (List.mem_cons_self _ _) (List.mem_cons_self _ _) hab)
        (ih (fun a b ha hb hr =>
          H a b (List.mem_cons_of_mem _ ha) (List.mem_cons_of_mem _ hb) hr))

/-- The arrow loop of `load_diagram` succeeds when every index resolves,
rebuilding each arrow from its resolved endpoints. -/
theorem buildArrows_loads (ns : List Node) :
    ∀ (ads : List ArrowDict) (aid : Nat),
      (∀ ad ∈ ads, ∃ sn en,
          pyIndex ns ad.start = some sn ∧ pyIndex ns ad.endIdx = some en) →
      (buildArrows ns aid ads).2.2 = false ∧
      List.Forall₂ (ArrowLoaded ns) ads (buildArrows ns aid ads).1 := by
  intro ads
  induction ads with
  | nil =>
      intro aid _
      exact ⟨rfl, List.Forall₂.nil⟩
  | cons ad rest ih =>
      intro aid h
      obtain ⟨sn, en, hsn, hen⟩ := h ad (List.mem_cons_self _ _)
      obtain ⟨herr, hfa⟩ :=
        ih (aid + 1) (fun ad' h' => h ad' (List.mem_cons_of_mem _ h'))
      rcases hba : buildArrows ns (aid + 1) rest with ⟨ars, aid', err⟩
      rw [hba] at herr hfa
      simp only at herr hfa
      constructor
      · simp [buildArrows, hsn, hen, hba, herr]
      · have hl : (buildArrows ns aid (ad :: rest)).1
            = ⟨aid, sn.id, en.id, false⟩ :: ars := by
          simp [buildArrows, hsn, hen, hba]
        rw [hl]
        exact List.Forall₂.cons ⟨sn, en, hsn, hen, rfl, rfl⟩ hfa

/-- C3: for every document whose arrows all have their endpoints in the
store, `save` succeeds, loading the saved JSON (into any canvas, with any
font metrics) succeeds, and saving the loaded document reproduces the
first save exactly: node order, type tags, texts, coordinates and arrow
index pairs are all preserved. -/
theorem save_load_save_roundtrip (m' : FontMetrics) (s : CanvasState)
    (hwf : WFArrows s) (_hnd : NodupNodeIds s) :
    ∃ d : DiagramData,
      save_diagram s = some d ∧
      ∀ s0 : CanvasState,
        (load_diagram m' s0 d).2 = false ∧
        save_diagram (load_diagram m' s0 d).1 = some d := by
  have hall : ∀ a ∈ s.arrows, ∃ dd, arrow_to_dict s.nodes a = some dd := by
    intro a ha
    obtain ⟨hs, he⟩ := hwf a ha
    obtain ⟨si, hsi⟩ := indexOf_isSome_of_mem _ s.nodes hs
    obtain ⟨ei, hei⟩ := indexOf_isSome_of_mem _ s.nodes he
    exact ⟨⟨(si : Int), (ei : Int)⟩, by simp [arrow_to_dict, hsi, hei]⟩
  obtain ⟨ds, hds, hfa⟩ := atd_some_of_all s.nodes s.arrows hall
  refine ⟨⟨s.nodes.map node_to_dict, ds⟩, ?_, ?_⟩
  · simp [save_diagram, hds]
  · intro s0
    have hbn := buildNodes_map_to_dict m' s.nodes s0.nextId
    have hshape : ∀ ad ∈ ds, ∃ si ei : Nat,
        si < s.nodes.length ∧ ei < s.nodes.length ∧
        ad = ⟨(si : Int), (ei : Int)⟩ := by
      intro ad had
      obtain ⟨a, _, hr⟩ := forall₂_mem_right hfa ad had
      obtain ⟨si, ei, hsi, hei, rfl⟩ := arrow_to_dict_inv s.nodes a ad hr
      exact ⟨si, ei, indexOf_some_lt _ s.nodes si hsi,
        indexOf_some_lt _ s.nodes ei hei, rfl⟩
    have hget : ∀ i : Nat, i < s.nodes.length →
        ∃ nn, (rebuild m' s0.nextId s.nodes).get? i = some nn ∧
          nn.id = s0.nextId + i := by
      intro i hi
      rcases hgi : s.nodes.get? i with _ | n0
      · rw [List.get?_eq_none] at hgi
        omega
      · refine ⟨Node.make m' (s0.nextId + i) n0.kind n0.x n0.y n0.text,
          ?_, rfl⟩
        rw [rebuild_get? m' s.nodes s0.nextId i, hgi]
        rfl
    have hvalid : ∀ ad ∈ ds, ∃ sn en,
        pyIndex (rebuild m' s0.nextId s.nodes) ad.start = some sn ∧
        pyIndex (rebuild m' s0.nextId s.nodes) ad.endIdx = some en := by
      intro ad had
      obtain ⟨si, ei, hsl, hel, rfl⟩ := hshape ad had
      obtain ⟨sn, hsn, _⟩ := hget si hsl
      obtain ⟨en, hen, _⟩ := hget ei hel
      refine ⟨sn, en, ?_, ?_⟩
      · show pyIndex (rebuild m' s0.nextId s.nodes) (si : Int) = some sn
        rw [pyIndex_ofNat]
        exact hsn
      · show pyIndex (rebuild m' s0.nextId s.nodes) (ei : Int) = some en
        rw [pyIndex_ofNat]
        exact hen
    obtain ⟨herr, hfl⟩ := buildArrows_loads (rebuild m' s0.nextId s.nodes)
      ds (s0.nextId + s.nodes.length) hvalid
    rcases hba : buildArrows (rebuild m' s0.nextId s.nodes)
        (s0.nextId + s.nodes.length) ds with ⟨ars, aid, err⟩
    rw [hba] at herr hfl
    simp only at herr hfl
    have hload : load_diagram m' s0 ⟨s.nodes.map node_to_dict, ds⟩
        = ({ s0 with
              nodes := rebuild m' s0.nextId s.nodes
              arrows := ars
              nextId := aid
              selected_node := none
              selected_arrow := none
              arrow_source_node := none }, false) := by
      simp [load_diagram, hbn, hba, herr]
    refine ⟨by rw [hload], ?_⟩
    rw [hload]
    have hsecond : List.Forall₂
        (fun a ad => arrow_to_dict (rebuild m' s0.nextId s.nodes) a = some ad)
        ars ds := by
      apply forall₂_flip_of_mem hfl
      intro ad a' had _ hr
      obtain ⟨si, ei, hsl, hel, rfl⟩ := hshape ad had
      obtain ⟨sn, en, hsn, hen, hstart, hend⟩ := hr
      obtain ⟨nn, hnn, hnid⟩ := hget si hsl
      obtain ⟨nn2, hnn2, hnid2⟩ := hget ei hel
      have hsn' : (rebuild m' s0.nextId s.nodes).get? si = some sn := by
        have := hsn
        rw [show (⟨(si : Int), (ei : Int)⟩ : ArrowDict).start = (si : Int)
          from rfl, pyIndex_ofNat] at this
        exact this
      have hen' : (rebuild m' s0.nextId s.nodes).get? ei = some en := by
        have := hen
        rw [show (⟨(si : Int), (ei : Int)⟩ : ArrowDict).endIdx = (ei : Int)
          from rfl, pyIndex_ofNat] at this
        exact this
      have hsneq : sn = nn := by
        rw [hsn'] at hnn
        cases hnn
        rfl
      have heneq : en = nn2 := by
        rw [hen'] at hnn2
        cases hnn2
        rfl
      have hsid : a'.start_node = s0.nextId + si := by
        rw [hstart, hsneq, hnid]
      have heid : a'.end_node = s0.nextId + ei := by
        rw [hend, heneq, hnid2]
      have hidx1 : indexOfNode (rebuild m' s0.nextId s.nodes)
          (s0.nextId + si) = some si :=
        indexOf_rebuild m' s.nodes s0.nextId si hsl
      have hidx2 : indexOfNode (rebuild m' s0.nextId s.nodes)
          (s0.nextId + ei) = some ei :=
        indexOf_rebuild m' s.nodes s0.nextId ei hel
      simp [arrow_to_dict, hsid, heid, hidx1, hidx2]
    have hsave2 := atd_some_of_forall₂ (rebuild m' s0.nextId s.nodes) hsecond
    simp [save_diagram, hsave2, rebuild_map_to_dict]

/-- C3 witness: the concrete three-node document round-trips — its save
succeeds, the load of the saved data succeeds, and the second save equals
the first. -/
theorem save_load_save_roundtrip_witness :
    WFArrows tripleScenario ∧ NodupNodeIds tripleScenario ∧
    ∃ d : DiagramData,
      save_diagram tripleScenario = some d ∧
      (load_diagram mTest emptyCanvas d).2 = false ∧
      save_diagram (load_diagram mTest emptyCanvas d).1 = some d := by
  refine ⟨by decide, by decide, ?_⟩
  obtain ⟨d, hd, hall⟩ :=
    save_load_save_roundtrip mTest tripleScenario (by decide) (by decide)
  exact ⟨d, hd, (hall emptyCanvas).1, (hall emptyCanvas).2⟩
